import Mathlib

/-!
Verification of the seqpicker representative-set selection core
(`src/seqpicker/repset.py`) against its natural-language specification.

The Python module is embedded shallowly:

* `Database` (a Python dict keyed by sequence id) becomes an insertion-ordered
  association list; dict writes are modelled by `assocSet` (replace in place,
  append when absent).
* Floats are modelled by `ℚ`; the `float("-inf")` priority sentinel becomes
  `⊥ : WithBot ℚ`, and the value `-priority_queue[0][0]` (which is `+inf`
  exactly when the stored priority is `-inf`) lives in `WithTop ℚ`.
* The `heapq` priority queue is modelled extensionally: a list of entries
  together with `popMin`, which removes the least entry in the lexicographic
  order on `(priority, seq_id)` — exactly the tuple order Python's heap pops,
  and uniquely determined because all queued ids are distinct.
* The `while` loop is modelled with explicit fuel (`selectLoop`); running out
  of fuel returns `none`, so genuine non-termination of the Python loop shows
  up as `= none` for every fuel.
* Exceptions (`ValueError`) become `Except SelError`.

The Python local `evaluations_since_last_selection` is incremented and reset
by the source but never read, so it does not influence any observable
behaviour and is not part of the loop state.
-/

namespace Seqpicker

/-- Sequence identifiers (`SeqId = str`). -/
abbrev SeqId := String

/-- `NeighborInfo` record: `{log10_e, pct_identical}`. -/
structure NeighborInfo where
  log10_e : ℚ
  pct_identical : ℚ
deriving DecidableEq, Repr

/-- `NeighborDict` record: the two inner dicts of a database entry, as
insertion-ordered association lists. -/
structure NeighborDict where
  neighbors : List (SeqId × NeighborInfo)
  in_neighbors : List (SeqId × NeighborInfo)
deriving DecidableEq, Repr

/-- `Database = Dict[SeqId, NeighborDict]`, as an insertion-ordered
association list. -/
abbrev Database := List (SeqId × NeighborDict)

/-- Keys of a database, in insertion order. -/
def dbKeys (db : Database) : List SeqId := db.map Prod.fst

/-- Lookup in an association list (Python `d[k]` / `k in d`). -/
def assocGet {V : Type} (l : List (SeqId × V)) (k : SeqId) : Option V :=
  match l with
  | [] => none
  | (k', v) :: t => if k' = k then some v else assocGet t k

/-- Python dict assignment `d[k] = v`: replace in place when the key exists,
append at the end otherwise. -/
def assocSet {V : Type} (l : List (SeqId × V)) (k : SeqId) (v : V) : List (SeqId × V) :=
  match l with
  | [] => [(k, v)]
  | (k', v') :: t => if k' = k then (k, v) :: t else (k', v') :: assocSet t k v

/-- Update the value stored at an existing key, leaving the rest unchanged
(Python `d[k].field = ...` on a present key). -/
def assocModify {V : Type} (l : List (SeqId × V)) (k : SeqId) (f : V → V) :
    List (SeqId × V) :=
  match l with
  | [] => []
  | (k', v) :: t => if k' = k then (k', f v) :: t else (k', v) :: assocModify t k f

/-- `row.seqname1.split("/")[0]`: the first `/`-delimited segment of the
name, i.e. the characters before the first `/` (the whole name when there is
none) — any trailing `/...` coordinate suffix is dropped. -/
def stripCoords (s : String) : String := ⟨s.data.takeWhile (fun c => c ≠ '/')⟩

/-- Recording one parsed row whose stripped ids are `seq_id1` and `seq_id2`:
initialize the two entries if absent, then store the neighbor info
bidirectionally, exactly as the source does
(`db[seq_id2]["neighbors"][seq_id1]` and
`db[seq_id1]["in_neighbors"][seq_id2]`, the same info on both sides). -/
def recordStep (db : Database) (seq_id1 seq_id2 : SeqId) (pident : ℚ) : Database :=
  let db1 := if (assocGet db seq_id1).isSome then db else db ++ [(seq_id1, ⟨[], []⟩)]
  let db2 := if (assocGet db1 seq_id2).isSome then db1 else db1 ++ [(seq_id2, ⟨[], []⟩)]
  let info : NeighborInfo := ⟨-100, pident⟩
  let db3 := assocModify db2 seq_id2
    (fun nd => { nd with neighbors := assocSet nd.neighbors seq_id1 info })
  assocModify db3 seq_id1
    (fun nd => { nd with in_neighbors := assocSet nd.in_neighbors seq_id2 info })

/-- Body of the row loop of `parse_pairwise_identities`: strip the two names
(`row.seqname1.split("/")[0]`, `row.seqname2.split("/")[0]`), then record. -/
def recordRow (db : Database) (row : String × String × ℚ) : Database :=
  recordStep db (stripCoords row.1) (stripCoords row.2.1) row.2.2

/-- `parse_pairwise_identities`, restricted to its pure row-processing loop:
the parsed rows `(seqname1, seqname2, %id)` are folded into a database. -/
def parse_pairwise_identities (rows : List (String × String × ℚ)) : Database :=
  rows.foldl recordRow []

/-- Lookup `db[y]["neighbors"][x]`. -/
def neighborsAt (db : Database) (y x : SeqId) : Option NeighborInfo :=
  match assocGet db y with
  | none => none
  | some nd => assocGet nd.neighbors x

/-- Lookup `db[y]["in_neighbors"][x]`. -/
def inNeighborsAt (db : Database) (y x : SeqId) : Option NeighborInfo :=
  match assocGet db y with
  | none => none
  | some nd => assocGet nd.in_neighbors x

/-- `SimilarityFunction`: `(log10_e, pct_identical) -> score`. -/
abbrev SimilarityFunction := ℚ → ℚ → ℚ

/-- The error taxonomy of the module: both cases are Python `ValueError`s,
distinguished by the spec as InvalidState (empty database) and
InvalidConfiguration (count mismatches). -/
inductive SelError where
  | invalidState
  | invalidConfiguration
deriving DecidableEq, Repr

/-- `ObjectiveFunction`: the bag of callables, with the opaque per-objective
state type `σ`. `full_data_func` is carried along but unused by selection. -/
structure ObjectiveFunction (σ : Type) where
  name : String
  eval_func : Database → List SeqId → SimilarityFunction → ℚ
  diff_func : Database → SeqId → SimilarityFunction → σ → ℚ
  update_func : Database → SeqId → SimilarityFunction → σ → σ
  base_data_func : Database → SimilarityFunction → σ
  full_data_func : Database → SimilarityFunction → σ

/-- `MixtureObjective`: objectives plus weights (the `name` string plays no
role in selection and is omitted). -/
structure MixtureObjective (σ : Type) where
  objectives : List (ObjectiveFunction σ)
  weights : List ℚ

/-- `MixtureObjective.__init__`: raises when the list lengths differ. -/
def MixtureObjective.init {σ : Type} (objectives : List (ObjectiveFunction σ))
    (weights : List ℚ) : Except SelError (MixtureObjective σ) :=
  if objectives.length ≠ weights.length then .error .invalidConfiguration
  else .ok ⟨objectives, weights⟩

/-- `MixtureObjective.evaluate`: weighted sum over `zip(objectives,
sim_funcs, weights)` (silently truncating to the shortest list, as `zip`
does). -/
def MixtureObjective.evaluate {σ : Type} (m : MixtureObjective σ) (db : Database)
    (seq_ids : List SeqId) (sim_funcs : List SimilarityFunction) : ℚ :=
  ((m.objectives.zip (sim_funcs.zip m.weights)).map
    (fun t => t.2.2 * t.1.eval_func db seq_ids t.2.1)).sum

/-- `MixtureObjective.compute_marginal_gain`: weighted sum over
`zip(objectives, sim_funcs, weights, objective_data)`. -/
def MixtureObjective.compute_marginal_gain {σ : Type} (m : MixtureObjective σ)
    (db : Database) (seq_id : SeqId) (sim_funcs : List SimilarityFunction)
    (objective_data : List σ) : ℚ :=
  ((m.objectives.zip (sim_funcs.zip (m.weights.zip objective_data))).map
    (fun t => t.2.2.1 * t.1.diff_func db seq_id t.2.1 t.2.2.2)).sum

/-- `MixtureObjective.update_data`: per-objective state update over
`zip(objectives, sim_funcs, objective_data)`. -/
def MixtureObjective.update_data {σ : Type} (m : MixtureObjective σ)
    (db : Database) (seq_id : SeqId) (sim_funcs : List SimilarityFunction)
    (objective_data : List σ) : List σ :=
  (m.objectives.zip (sim_funcs.zip objective_data)).map
    (fun t => t.1.update_func db seq_id t.2.1 t.2.2)

/-- Priorities stored in the heap: a rational, or the `float("-inf")`
sentinel `⊥`. -/
abbrev Priority := WithBot ℚ

/-- A heap entry `(priority, seq_id)`. -/
abbrev Entry := Priority × SeqId

/-- `-priority`: negating a stored priority, sending `-inf` to `+inf`. -/
def negPriority : Priority → WithTop ℚ
  | ⊥ => ⊤
  | (q : ℚ) => ((-q : ℚ) : WithTop ℚ)

/-- The lexicographic tuple order Python uses to compare `(priority, seq_id)`
heap entries. -/
def entryLE (a b : Entry) : Prop :=
  a.1 < b.1 ∨ (a.1 = b.1 ∧ a.2 ≤ b.2)

instance (a b : Entry) : Decidable (entryLE a b) := by
  unfold entryLE; infer_instance

/-- Remove the least entry of the queue (what `heapq.heappop` returns; the
minimum is unique whenever all queued ids are distinct). -/
def popMin : List Entry → Option (Entry × List Entry)
  | [] => none
  | e :: es =>
    match popMin es with
    | none => some (e, [])
    | some (m, rest) => if entryLE e m then some (e, es) else some (m, e :: rest)

/-- The acceptance test of the main loop:
`(actual_gain - next_possible_gain) / (|actual_gain| + ε) ≥ min_relative_gain`,
with `next_possible_gain = -inf` (queue empty after the pop) making the ratio
`+inf` and `next_possible_gain = +inf` (a `-inf` priority on top) making it
`-inf`. -/
def acceptDecision (g : ℚ) (u : Option (WithTop ℚ)) (ε μ : ℚ) : Bool :=
  match u with
  | none => true
  | some ⊤ => false
  | some (u' : ℚ) => decide (μ ≤ (g - u') / (|g| + ε))

/-- The mutable state of the selection loop. -/
structure LoopState (σ : Type) where
  db : Database
  representatives : List SeqId
  queue : List Entry
  objective_data : List σ
deriving DecidableEq

/-- `len(representatives) < max_representatives`, where `max_size = None`
means `float("inf")`. -/
def underMax (max_size : Option ℕ) (n : ℕ) : Bool :=
  match max_size with
  | none => true
  | some k => decide (n < k)

/-- The `while` guard:
`len(representatives) < max_representatives and len(priority_queue) > 1`. -/
def loopGuard {σ : Type} (max_size : Option ℕ) (s : LoopState σ) : Bool :=
  underMax max_size s.representatives.length && decide (1 < s.queue.length)

/-- One iteration of the main loop body: pop the least entry, recompute its
exact gain, peek the next best queued bound, and either accept the candidate
or requeue it keyed by its exact gain. -/
def loopStep {σ : Type} (m : MixtureObjective σ) (sim_funcs : List SimilarityFunction)
    (ε μ : ℚ) (s : LoopState σ) : LoopState σ :=
  match popMin s.queue with
  | none => s
  | some (e, rest) =>
    if acceptDecision (m.compute_marginal_gain s.db e.2 sim_funcs s.objective_data)
        ((popMin rest).map (fun er => negPriority er.1.1)) ε μ then
      { s with representatives := s.representatives ++ [e.2]
               queue := rest
               objective_data := m.update_data s.db e.2 sim_funcs s.objective_data }
    else
      { s with queue :=
          rest ++ [(((-(m.compute_marginal_gain s.db e.2 sim_funcs s.objective_data) : ℚ) :
            Priority), e.2)] }

/-- The main loop, with explicit fuel: `none` means the fuel ran out with the
guard still true (the Python loop is still running). -/
def selectLoop {σ : Type} (m : MixtureObjective σ) (sim_funcs : List SimilarityFunction)
    (max_size : Option ℕ) (ε μ : ℚ) : ℕ → LoopState σ → Option (LoopState σ)
  | 0, s => if loopGuard max_size s then none else some s
  | fuel + 1, s =>
    if loopGuard max_size s then
      selectLoop m sim_funcs max_size ε μ fuel (loopStep m sim_funcs ε μ s)
    else some s

/-- The post-loop fix-up: if exactly one candidate remains queued and there is
room, append it. -/
def finalizeSelection {σ : Type} (max_size : Option ℕ) (s : LoopState σ) : List SeqId :=
  match s.queue with
  | [e] =>
    if underMax max_size s.representatives.length then s.representatives ++ [e.2]
    else s.representatives
  | _ => s.representatives

/-- The state as set up just before the main loop. -/
def initState {σ : Type} (db : Database) (objective : MixtureObjective σ)
    (sim_funcs : List SimilarityFunction) (initial_priority : Priority) : LoopState σ :=
  { db := db
    representatives := []
    queue := db.map (fun kv => (initial_priority, kv.1))
    objective_data :=
      (objective.objectives.zip sim_funcs).map (fun os => os.1.base_data_func db os.2) }

/-- `select_representatives`, fuel-indexed. Returns `.ok none` when the fuel
is exhausted with the loop still running; `.ok (some reps)` models a normal
Python return. Parameter order follows the Python signature, with the
defaults `max_size = none`, `approx_ratio = 1`, `initial_priority = ⊥`,
`gain_denominator_offset = 1/100`, `min_relative_gain = none` supplied
explicitly by callers. -/
def select_representatives {σ : Type} (fuel : ℕ) (db : Database)
    (objective : MixtureObjective σ) (sim_funcs : List SimilarityFunction)
    (max_size : Option ℕ) (approx_ratio : ℚ) (initial_priority : Priority)
    (gain_denominator_offset : ℚ) (min_relative_gain : Option ℚ) :
    Except SelError (Option (List SeqId)) :=
  if db = [] then .error .invalidState
  else if sim_funcs.length ≠ objective.objectives.length then .error .invalidConfiguration
  else
    let μ := min_relative_gain.getD (approx_ratio - 1)
    match selectLoop objective sim_funcs max_size gain_denominator_offset μ fuel
      (initState db objective sim_funcs initial_priority) with
    | none => .ok none
    | some s => .ok (some (finalizeSelection max_size s))

/-- The ids held in a queue, in queue order. -/
def queueIds (q : List Entry) : List SeqId := q.map Prod.snd

/-- Every queued entry's stored bound is a valid upper bound on its current
exact marginal gain. -/
def boundsOK {σ : Type} (m : MixtureObjective σ) (sim_funcs : List SimilarityFunction)
    (s : LoopState σ) : Prop :=
  ∀ e ∈ s.queue,
    ((m.compute_marginal_gain s.db e.2 sim_funcs s.objective_data : ℚ) : WithTop ℚ) ≤
      negPriority e.1

/-- `loopIter n s` is the state after `n` iterations of the guarded loop
(the guard failing freezes the state). -/
def loopIter {σ : Type} (m : MixtureObjective σ) (sim_funcs : List SimilarityFunction)
    (max_size : Option ℕ) (ε μ : ℚ) : ℕ → LoopState σ → LoopState σ
  | 0, s => s
  | n + 1, s =>
    if loopGuard max_size s then
      loopIter m sim_funcs max_size ε μ n (loopStep m sim_funcs ε μ s)
    else s

/-- An entry is stale when its stored priority is not the negation of its
current exact gain. -/
def entryStale {σ : Type} (m : MixtureObjective σ) (sim_funcs : List SimilarityFunction)
    (db : Database) (data : List σ) (e : Entry) : Bool :=
  decide (e.1 ≠ ((-(m.compute_marginal_gain db e.2 sim_funcs data) : ℚ) : Priority))

/-- Number of stale entries in the queue. -/
def staleCount {σ : Type} (m : MixtureObjective σ) (sim_funcs : List SimilarityFunction)
    (s : LoopState σ) : ℕ :=
  s.queue.countP (entryStale m sim_funcs s.db s.objective_data)

/-- The loop variant for exact mode: each guarded step strictly decreases it. -/
def loopMeasure {σ : Type} (m : MixtureObjective σ) (sim_funcs : List SimilarityFunction)
    (s : LoopState σ) : ℕ :=
  s.queue.length * s.queue.length + staleCount m sim_funcs s

/-! ### Concrete fixtures used to witness the theorems on explicit inputs -/

/-- `compute_similarity` from the source: `pct_identical / 100` (the e-value
argument is accepted and ignored). -/
def compute_similarity (log10_e pct_identical : ℚ) : ℚ := pct_identical / 100

/-- A trivial objective over the unit state: every candidate always has
marginal gain 1 and updates change nothing. -/
def constObjective : ObjectiveFunction Unit :=
  { name := "const"
    eval_func := fun _ _ _ => 0
    diff_func := fun _ _ _ _ => 1
    update_func := fun _ _ _ d => d
    base_data_func := fun _ _ => ()
    full_data_func := fun _ _ => () }

/-- A singleton mixture of the trivial objective with weight 1. -/
def constMixture : MixtureObjective Unit := ⟨[constObjective], [1]⟩

/-- An entry with no recorded neighbors. -/
def emptyNeighbors : NeighborDict := ⟨[], []⟩

/-- A two-sequence database. -/
def dbTwo : Database := [("a", emptyNeighbors), ("b", emptyNeighbors)]

/-- A three-sequence database. -/
def dbThree : Database := [("a", emptyNeighbors), ("b", emptyNeighbors), ("c", emptyNeighbors)]

/-- States visited forever by the loop on `dbTwo` with `approx_ratio = 2`
(constant equal gains): after three iterations the state becomes a fixpoint
of the guarded step and the loop never exits. -/
def stuckState0 : LoopState Unit :=
  ⟨dbTwo, [], [(⊥, "a"), (⊥, "b")], [()]⟩

def stuckState1 : LoopState Unit :=
  ⟨dbTwo, [], [(⊥, "b"), (((-1 : ℚ) : Priority), "a")], [()]⟩

def stuckState2 : LoopState Unit :=
  ⟨dbTwo, [], [(((-1 : ℚ) : Priority), "a"), (((-1 : ℚ) : Priority), "b")], [()]⟩

def stuckState3 : LoopState Unit :=
  ⟨dbTwo, [], [(((-1 : ℚ) : Priority), "b"), (((-1 : ℚ) : Priority), "a")], [()]⟩

/-- States reached by the first two (rejecting) iterations of the exact-mode
loop on `dbThree`. -/
def iterState0 : LoopState Unit :=
  ⟨dbThree, [], [((⊥ : Priority), "a"), ((⊥ : Priority), "b"), ((⊥ : Priority), "c")], [()]⟩

def iterState1 : LoopState Unit :=
  ⟨dbThree, [], [((⊥ : Priority), "b"), ((⊥ : Priority), "c"),
    (((-1 : ℚ) : Priority), "a")], [()]⟩

def iterState2 : LoopState Unit :=
  ⟨dbThree, [], [((⊥ : Priority), "c"), (((-1 : ℚ) : Priority), "a"),
    (((-1 : ℚ) : Priority), "b")], [()]⟩


/-! ### Order facts about heap entries -/

theorem entryLE_total (a b : Entry) : entryLE a b ∨ entryLE b a := by
  unfold entryLE
  rcases lt_trichotomy a.1 b.1 with h | h | h
  · exact Or.inl (Or.inl h)
  · rcases le_total a.2 b.2 with h2 | h2
    · exact Or.inl (Or.inr ⟨h, h2⟩)
    · exact Or.inr (Or.inr ⟨h.symm, h2⟩)
  · exact Or.inr (Or.inl h)

theorem entryLE_trans {a b c : Entry} (h1 : entryLE a b) (h2 : entryLE b c) :
    entryLE a c := by
  unfold entryLE at *
  rcases h1 with h1 | ⟨h1, h1'⟩ <;> rcases h2 with h2 | ⟨h2, h2'⟩
  · exact Or.inl (h1.trans h2)
  · exact Or.inl (h2 ▸ h1)
  · exact Or.inl (h1 ▸ h2)
  · exact Or.inr ⟨h1.trans h2, h1'.trans h2'⟩

theorem entryLE_key {a b : Entry} (h : entryLE a b) : a.1 ≤ b.1 := by
  rcases h with h | ⟨h, _⟩
  · exact le_of_lt h
  · exact le_of_eq h

theorem negPriority_bot : negPriority ⊥ = ⊤ := rfl

theorem negPriority_coe (q : ℚ) : negPriority ((q : ℚ) : Priority) = ((-q : ℚ) : WithTop ℚ) := rfl

theorem negPriority_antitone {k1 k2 : Priority} (h : k1 ≤ k2) :
    negPriority k2 ≤ negPriority k1 := by
  induction k1 using WithBot.recBotCoe with
  | bot => rw [negPriority_bot]; exact le_top
  | coe q1 =>
    induction k2 using WithBot.recBotCoe with
    | bot => exact absurd h (by simp)
    | coe q2 =>
      have hq : q1 ≤ q2 := by exact_mod_cast h
      rw [negPriority_coe, negPriority_coe]
      exact_mod_cast neg_le_neg hq

/-! ### Facts about `popMin` -/

theorem popMin_eq_none {l : List Entry} : popMin l = none ↔ l = [] := by
  cases l with
  | nil => simp [popMin]
  | cons e es =>
    simp only [popMin]
    cases hes : popMin es with
    | none => simp
    | some mr =>
      obtain ⟨mm, rest⟩ := mr
      by_cases hle : entryLE e mm <;> simp [hle]

theorem popMin_perm {l : List Entry} {e : Entry} {r : List Entry}
    (h : popMin l = some (e, r)) : l.Perm (e :: r) := by
  induction l generalizing e r with
  | nil => simp [popMin] at h
  | cons a es ih =>
    simp only [popMin] at h
    revert h
    cases hes : popMin es with
    | none =>
      intro h
      obtain rfl : es = [] := popMin_eq_none.mp hes
      simp at h
      obtain ⟨rfl, rfl⟩ := h
      exact List.Perm.refl _
    | some mr =>
      obtain ⟨mm, rest⟩ := mr
      by_cases hle : entryLE a mm
      · dsimp only
        rw [if_pos hle]
        intro h
        simp at h
        obtain ⟨rfl, rfl⟩ := h
        exact List.Perm.refl _
      · dsimp only
        rw [if_neg hle]
        intro h
        simp at h
        obtain ⟨rfl, rfl⟩ := h
        exact ((ih hes).cons a).trans (List.Perm.swap mm a rest)

theorem popMin_le {l : List Entry} {e : Entry} {r : List Entry}
    (h : popMin l = some (e, r)) : ∀ x ∈ r, entryLE e x := by
  induction l generalizing e r with
  | nil => simp [popMin] at h
  | cons a es ih =>
    simp only [popMin] at h
    revert h
    cases hes : popMin es with
    | none =>
      intro h
      simp at h
      obtain ⟨rfl, rfl⟩ := h
      simp
    | some mr =>
      obtain ⟨mm, rest⟩ := mr
      by_cases hle : entryLE a mm
      · dsimp only
        rw [if_pos hle]
        intro h
        simp at h
        obtain ⟨rfl, rfl⟩ := h
        intro x hx
        rcases List.mem_cons.mp ((popMin_perm hes).mem_iff.mp hx) with rfl | hx'
        · exact hle
        · exact entryLE_trans hle (ih hes x hx')
      · dsimp only
        rw [if_neg hle]
        intro h
        simp at h
        obtain ⟨rfl, rfl⟩ := h
        intro x hx
        rcases List.mem_cons.mp hx with rfl | hx'
        · rcases entryLE_total mm x with h' | h'
          · exact h'
          · exact absurd h' hle
        · exact ih hes x hx'

theorem popMin_length {l : List Entry} {e : Entry} {r : List Entry}
    (h : popMin l = some (e, r)) : l.length = r.length + 1 := by
  simpa using (popMin_perm h).length_eq

/-! ### Generic loop invariants -/

/-- A property preserved by every guarded loop step holds of the loop's
result, which moreover fails the guard. -/
theorem selectLoop_inv {σ : Type} (m : MixtureObjective σ)
    (sim_funcs : List SimilarityFunction) (max_size : Option ℕ) (ε μ : ℚ)
    (P : LoopState σ → Prop)
    (hstep : ∀ s, loopGuard max_size s = true → P s →
      P (loopStep m sim_funcs ε μ s)) :
    ∀ (fuel : ℕ) (s s' : LoopState σ), P s →
      selectLoop m sim_funcs max_size ε μ fuel s = some s' →
      P s' ∧ loopGuard max_size s' = false := by
  intro fuel
  induction fuel with
  | zero =>
    intro s s' hP h
    simp only [selectLoop] at h
    by_cases hg : loopGuard max_size s = true
    · simp [hg] at h
    · simp [hg] at h
      subst h
      exact ⟨hP, by simpa using hg⟩
  | succ n ih =>
    intro s s' hP h
    simp only [selectLoop] at h
    by_cases hg : loopGuard max_size s = true
    · rw [if_pos hg] at h
      exact ih _ _ (hstep s hg hP) h
    · rw [if_neg hg] at h
      simp at h
      subst h
      exact ⟨hP, by simpa using hg⟩

theorem queueIds_append (q r : List Entry) :
    queueIds (q ++ r) = queueIds q ++ queueIds r := by
  simp [queueIds]

/-- Each loop step permutes the combined pool of already-selected ids and
still-queued ids (it moves ids around, never invents or drops one). -/
theorem loopStep_perm {σ : Type} (m : MixtureObjective σ)
    (sim_funcs : List SimilarityFunction) (ε μ : ℚ) (s : LoopState σ) :
    ((loopStep m sim_funcs ε μ s).representatives ++
        queueIds (loopStep m sim_funcs ε μ s).queue).Perm
      (s.representatives ++ queueIds s.queue) := by
  unfold loopStep
  cases hpop : popMin s.queue with
  | none => exact List.Perm.refl _
  | some er =>
    obtain ⟨e, rest⟩ := er
    dsimp only
    have hq : (queueIds s.queue).Perm (e.2 :: queueIds rest) := by
      simpa [queueIds] using (popMin_perm hpop).map Prod.snd
    by_cases hacc : acceptDecision
        (m.compute_marginal_gain s.db e.2 sim_funcs s.objective_data)
        ((popMin rest).map (fun er => negPriority er.1.1)) ε μ = true
    · rw [if_pos hacc]
      have h1 : (s.representatives ++ [e.2]) ++ queueIds rest =
          s.representatives ++ (e.2 :: queueIds rest) := by simp
      rw [h1]
      exact List.Perm.append_left _ hq.symm
    · rw [if_neg hacc]
      refine List.Perm.append_left _ ?_
      rw [queueIds_append]
      exact (List.perm_append_singleton _ _).trans hq.symm

/-- Loop steps never touch the database component. -/
theorem loopStep_db {σ : Type} (m : MixtureObjective σ)
    (sim_funcs : List SimilarityFunction) (ε μ : ℚ) (s : LoopState σ) :
    (loopStep m sim_funcs ε μ s).db = s.db := by
  unfold loopStep
  cases hpop : popMin s.queue with
  | none => rfl
  | some er =>
    obtain ⟨e, rest⟩ := er
    dsimp only
    by_cases hacc : acceptDecision
        (m.compute_marginal_gain s.db e.2 sim_funcs s.objective_data)
        ((popMin rest).map (fun er => negPriority er.1.1)) ε μ = true
    · rw [if_pos hacc]
    · rw [if_neg hacc]

/-- A loop step extends the selected list by at most one id. -/
theorem loopStep_reps_le {σ : Type} (m : MixtureObjective σ)
    (sim_funcs : List SimilarityFunction) (ε μ : ℚ) (s : LoopState σ) :
    (loopStep m sim_funcs ε μ s).representatives.length ≤
      s.representatives.length + 1 := by
  unfold loopStep
  cases hpop : popMin s.queue with
  | none => exact Nat.le_succ _
  | some er =>
    obtain ⟨e, rest⟩ := er
    dsimp only
    by_cases hacc : acceptDecision
        (m.compute_marginal_gain s.db e.2 sim_funcs s.objective_data)
        ((popMin rest).map (fun er => negPriority er.1.1)) ε μ = true
    · rw [if_pos hacc]
      simp
    · rw [if_neg hacc]
      simp

theorem loopGuard_length {σ : Type} {max_size : Option ℕ} {s : LoopState σ}
    (hg : loopGuard max_size s = true) : 1 < s.queue.length := by
  unfold loopGuard at hg
  simp only [Bool.and_eq_true, decide_eq_true_eq] at hg
  exact hg.2

theorem loopGuard_underMax {σ : Type} {max_size : Option ℕ} {s : LoopState σ}
    (hg : loopGuard max_size s = true) :
    underMax max_size s.representatives.length = true := by
  unfold loopGuard at hg
  simp only [Bool.and_eq_true] at hg
  exact hg.1

/-- A loop step leaves the queue nonempty when the guard held. -/
theorem loopStep_queue_ne_nil {σ : Type} (m : MixtureObjective σ)
    (sim_funcs : List SimilarityFunction) {max_size : Option ℕ} (ε μ : ℚ)
    (s : LoopState σ) (hg : loopGuard max_size s = true) :
    (loopStep m sim_funcs ε μ s).queue ≠ [] := by
  have hlen : 1 < s.queue.length := loopGuard_length hg
  unfold loopStep
  cases hpop : popMin s.queue with
  | none =>
    exfalso
    rw [popMin_eq_none.mp hpop] at hlen
    simp at hlen
  | some er =>
    obtain ⟨e, rest⟩ := er
    dsimp only
    have hr : s.queue.length = rest.length + 1 := popMin_length hpop
    have hrest : rest ≠ [] := by
      intro hnil
      rw [hnil] at hr
      simp at hr
      omega
    by_cases hacc : acceptDecision
        (m.compute_marginal_gain s.db e.2 sim_funcs s.objective_data)
        ((popMin rest).map (fun er => negPriority er.1.1)) ε μ = true
    · rw [if_pos hacc]
      exact hrest
    · rw [if_neg hacc]
      simp

/-! ### The acceptance test -/

theorem acceptDecision_none (g ε μ : ℚ) : acceptDecision g none ε μ = true := rfl

theorem acceptDecision_top (g ε μ : ℚ) :
    acceptDecision g (some (⊤ : WithTop ℚ)) ε μ = false := rfl

theorem acceptDecision_coe (g u' ε μ : ℚ) :
    acceptDecision g (some ((u' : ℚ) : WithTop ℚ)) ε μ =
      decide (μ ≤ (g - u') / (|g| + ε)) := rfl

theorem acceptDecision_of_le {g u' ε μ : ℚ} (hε : 0 < ε) (hμ : μ ≤ 0) (h : u' ≤ g) :
    acceptDecision g (some ((u' : ℚ) : WithTop ℚ)) ε μ = true := by
  rw [acceptDecision_coe, decide_eq_true_eq]
  have hden : 0 < |g| + ε := by positivity
  have : (0 : ℚ) ≤ (g - u') / (|g| + ε) := div_nonneg (by linarith) (le_of_lt hden)
  linarith

theorem le_of_acceptDecision {g u' ε μ : ℚ} (hε : 0 < ε) (hμ : 0 ≤ μ)
    (h : acceptDecision g (some ((u' : ℚ) : WithTop ℚ)) ε μ = true) : u' ≤ g := by
  rw [acceptDecision_coe, decide_eq_true_eq] at h
  have hden : 0 < |g| + ε := by positivity
  have h0 : (0 : ℚ) ≤ (g - u') / (|g| + ε) := le_trans hμ h
  have := (le_div_iff₀ hden).mp h0
  linarith

/-! ### Popping a candidate whose key is already exact accepts it
(in exact mode) -/

/-- When the loop pops a candidate whose stored priority is already the
negation of its current exact gain, and the threshold is at most 0, the
acceptance test passes: the popped entry was the queue minimum, so its gain
dominates every remaining bound. -/
theorem accept_of_exact_key {σ : Type} (m : MixtureObjective σ)
    (sim_funcs : List SimilarityFunction) {max_size : Option ℕ} {ε μ : ℚ}
    (hε : 0 < ε) (hμ : μ ≤ 0) (s : LoopState σ)
    (hg : loopGuard max_size s = true) {e : Entry} {rest : List Entry}
    (hpop : popMin s.queue = some (e, rest))
    (hexact : e.1 = ((-(m.compute_marginal_gain s.db e.2 sim_funcs s.objective_data) : ℚ) :
      Priority)) :
    acceptDecision (m.compute_marginal_gain s.db e.2 sim_funcs s.objective_data)
      ((popMin rest).map (fun er => negPriority er.1.1)) ε μ = true := by
  have hlen := loopGuard_length hg
  have hr := popMin_length hpop
  have hrest : rest ≠ [] := by
    intro hnil
    rw [hnil] at hr
    simp at hr
    omega
  obtain ⟨⟨e2, rest2⟩, hpop2⟩ : ∃ p, popMin rest = some p := by
    cases h2 : popMin rest with
    | none => exact absurd (popMin_eq_none.mp h2) hrest
    | some p => exact ⟨p, rfl⟩
  have he2mem : e2 ∈ rest := (popMin_perm hpop2).symm.subset (List.mem_cons_self _ _)
  have hkey : e.1 ≤ e2.1 := entryLE_key (popMin_le hpop e2 he2mem)
  rw [hexact] at hkey
  have hne : e2.1 ≠ ⊥ := by
    intro hb
    rw [hb] at hkey
    exact absurd (le_bot_iff.mp hkey) (by simp)
  obtain ⟨q2, hq2eq⟩ := WithBot.ne_bot_iff_exists.mp hne
  have hq2 : -(m.compute_marginal_gain s.db e.2 sim_funcs s.objective_data) ≤ q2 := by
    rw [← hq2eq] at hkey
    exact_mod_cast hkey
  rw [hpop2]
  simp only [Option.map_some']
  rw [← hq2eq, negPriority_coe]
  exact acceptDecision_of_le hε hμ (by linarith)

/-! ### Upper-bound invariant (submodularity) -/

theorem boundsOK_init {σ : Type} (db : Database) (m : MixtureObjective σ)
    (sim_funcs : List SimilarityFunction) :
    boundsOK m sim_funcs (initState db m sim_funcs ⊥) := by
  intro e he
  have : e.1 = ⊥ := by
    simp only [initState, List.mem_map] at he
    obtain ⟨kv, _, rfl⟩ := he
    rfl
  rw [this, negPriority_bot]
  exact le_top

theorem boundsOK_step {σ : Type} (m : MixtureObjective σ)
    (sim_funcs : List SimilarityFunction) (ε μ : ℚ) (s : LoopState σ)
    (hsub : ∀ (data : List σ) (x c : SeqId),
      m.compute_marginal_gain s.db c sim_funcs (m.update_data s.db x sim_funcs data) ≤
        m.compute_marginal_gain s.db c sim_funcs data)
    (hB : boundsOK m sim_funcs s) :
    boundsOK m sim_funcs (loopStep m sim_funcs ε μ s) := by
  unfold loopStep
  cases hpop : popMin s.queue with
  | none => exact hB
  | some er =>
    obtain ⟨e, rest⟩ := er
    dsimp only
    have hmem : ∀ x ∈ rest, x ∈ s.queue := by
      intro x hx
      exact (popMin_perm hpop).symm.subset (List.mem_cons_of_mem _ hx)
    by_cases hacc : acceptDecision
        (m.compute_marginal_gain s.db e.2 sim_funcs s.objective_data)
        ((popMin rest).map (fun er => negPriority er.1.1)) ε μ = true
    · rw [if_pos hacc]
      intro x hx
      have h1 := hB x (hmem x hx)
      have h2 := hsub s.objective_data e.2 x.2
      exact le_trans (by exact_mod_cast h2) h1
    · rw [if_neg hacc]
      intro x hx
      rcases List.mem_append.mp hx with hx' | hx'
      · exact hB x (hmem x hx')
      · have : x = ((((-(m.compute_marginal_gain s.db e.2 sim_funcs s.objective_data)) : ℚ) :
            Priority), e.2) := by simpa using hx'
        subst this
        rw [negPriority_coe]
        simp

/-! ### Guarded iteration (the sequence of states the running loop visits) -/

theorem loopIter_inv {σ : Type} (m : MixtureObjective σ)
    (sim_funcs : List SimilarityFunction) (max_size : Option ℕ) (ε μ : ℚ)
    (P : LoopState σ → Prop)
    (hstep : ∀ s, loopGuard max_size s = true → P s →
      P (loopStep m sim_funcs ε μ s)) :
    ∀ (n : ℕ) (s : LoopState σ), P s → P (loopIter m sim_funcs max_size ε μ n s) := by
  intro n
  induction n with
  | zero => intro s hP; exact hP
  | succ k ih =>
    intro s hP
    rw [loopIter]
    by_cases hg : loopGuard max_size s = true
    · rw [if_pos hg]
      exact ih _ (hstep s hg hP)
    · rw [if_neg hg]
      exact hP

theorem loopIter_db {σ : Type} (m : MixtureObjective σ)
    (sim_funcs : List SimilarityFunction) (max_size : Option ℕ) (ε μ : ℚ)
    (n : ℕ) (s : LoopState σ) :
    (loopIter m sim_funcs max_size ε μ n s).db = s.db := by
  have := loopIter_inv m sim_funcs max_size ε μ (fun t => t.db = s.db)
    (fun u _ hu => (loopStep_db m sim_funcs ε μ u).trans hu) n s rfl
  exact this

/-! ### Termination of exact mode: a staleness measure -/

theorem loopMeasure_decreases {σ : Type} (m : MixtureObjective σ)
    (sim_funcs : List SimilarityFunction) {max_size : Option ℕ} {ε μ : ℚ}
    (hε : 0 < ε) (hμ : μ ≤ 0) (s : LoopState σ) (hg : loopGuard max_size s = true) :
    loopMeasure m sim_funcs (loopStep m sim_funcs ε μ s) < loopMeasure m sim_funcs s := by
  cases hpop : popMin s.queue with
  | none =>
    exfalso
    have := loopGuard_length hg
    rw [popMin_eq_none.mp hpop] at this
    simp at this
  | some er =>
    obtain ⟨e, rest⟩ := er
    have hlenq : s.queue.length = rest.length + 1 := popMin_length hpop
    unfold loopStep
    rw [hpop]
    dsimp only
    by_cases hacc : acceptDecision
        (m.compute_marginal_gain s.db e.2 sim_funcs s.objective_data)
        ((popMin rest).map (fun er => negPriority er.1.1)) ε μ = true
    · rw [if_pos hacc]
      unfold loopMeasure staleCount
      dsimp only
      have h1 : rest.countP (entryStale m sim_funcs s.db
          (m.update_data s.db e.2 sim_funcs s.objective_data)) ≤ rest.length :=
        List.countP_le_length _
      have h2 : (rest.length + 1) * (rest.length + 1) =
          rest.length * rest.length + 2 * rest.length + 1 := by ring
      rw [hlenq]
      omega
    · rw [if_neg hacc]
      unfold loopMeasure staleCount
      dsimp only
      have hstale : entryStale m sim_funcs s.db s.objective_data e = true := by
        unfold entryStale
        rw [decide_eq_true_eq]
        intro hexact
        exact hacc (accept_of_exact_key m sim_funcs hε hμ s hg hpop hexact)
      have hfresh : entryStale m sim_funcs s.db s.objective_data
          ((((-(m.compute_marginal_gain s.db e.2 sim_funcs s.objective_data)) : ℚ) :
            Priority), e.2) = false := by
        unfold entryStale
        simp
      have hcq : s.queue.countP (entryStale m sim_funcs s.db s.objective_data) =
          rest.countP (entryStale m sim_funcs s.db s.objective_data) + 1 := by
        rw [(popMin_perm hpop).countP_eq]
        simp [hstale]
      have hcq' : (rest ++ [((((-(m.compute_marginal_gain s.db e.2 sim_funcs
            s.objective_data)) : ℚ) : Priority), e.2)]).countP
            (entryStale m sim_funcs s.db s.objective_data) =
          rest.countP (entryStale m sim_funcs s.db s.objective_data) := by
        rw [List.countP_append]
        simp [hfresh]
      have hlen' : (rest ++ [((((-(m.compute_marginal_gain s.db e.2 sim_funcs
            s.objective_data)) : ℚ) : Priority), e.2)]).length = rest.length + 1 := by
        simp
      rw [hcq, hcq', hlen', hlenq]
      omega

/-- With enough fuel (the measure), the exact-mode loop returns. -/
theorem selectLoop_terminates {σ : Type} (m : MixtureObjective σ)
    (sim_funcs : List SimilarityFunction) (max_size : Option ℕ) {ε μ : ℚ}
    (hε : 0 < ε) (hμ : μ ≤ 0) :
    ∀ (fuel : ℕ) (s : LoopState σ), loopMeasure m sim_funcs s ≤ fuel →
      ∃ s', selectLoop m sim_funcs max_size ε μ fuel s = some s' := by
  intro fuel
  induction fuel with
  | zero =>
    intro s hm
    by_cases hg : loopGuard max_size s = true
    · exfalso
      have h1 := loopGuard_length hg
      have h2 : 2 ≤ s.queue.length := h1
      have h3 : 4 ≤ s.queue.length * s.queue.length := Nat.mul_le_mul h2 h2
      unfold loopMeasure at hm
      omega
    · exact ⟨s, by simp [selectLoop, hg]⟩
  | succ n ih =>
    intro s hm
    by_cases hg : loopGuard max_size s = true
    · have hdec := loopMeasure_decreases m sim_funcs hε hμ s hg
      obtain ⟨s', hs'⟩ := ih (loopStep m sim_funcs ε μ s) (by omega)
      refine ⟨s', ?_⟩
      rw [selectLoop, if_pos hg]
      exact hs'
    · exact ⟨s, by rw [selectLoop, if_neg hg]⟩

/-! ### Small helpers about the run -/

theorem entryLE_refl (a : Entry) : entryLE a a := Or.inr ⟨rfl, le_refl _⟩

theorem underMax_none (n : ℕ) : underMax none n = true := rfl

theorem underMax_some_iff (k n : ℕ) : underMax (some k) n = true ↔ n < k := by
  simp [underMax]

theorem initState_queueIds {σ : Type} (db : Database) (m : MixtureObjective σ)
    (sims : List SimilarityFunction) (ip : Priority) :
    queueIds (initState db m sims ip).queue = dbKeys db := by
  simp [initState, queueIds, dbKeys]

/-- Unfolding `select_representatives` once its two validation checks pass. -/
theorem select_run_eq {σ : Type} (fuel : ℕ) {db : Database} (m : MixtureObjective σ)
    {sims : List SimilarityFunction} (max_size : Option ℕ) (ar : ℚ) (ip : Priority)
    (ε : ℚ) (mrg : Option ℚ) (hdb : db ≠ []) (hsim : sims.length = m.objectives.length) :
    select_representatives fuel db m sims max_size ar ip ε mrg =
      match selectLoop m sims max_size ε (mrg.getD (ar - 1)) fuel
        (initState db m sims ip) with
      | none => .ok none
      | some s => .ok (some (finalizeSelection max_size s)) := by
  unfold select_representatives
  rw [if_neg hdb, if_neg (not_ne_iff.mpr hsim)]

theorem selectLoop_of_guard_false {σ : Type} (m : MixtureObjective σ)
    (sims : List SimilarityFunction) (max_size : Option ℕ) (ε μ : ℚ)
    (fuel : ℕ) {s : LoopState σ} (hg : loopGuard max_size s = false) :
    selectLoop m sims max_size ε μ fuel s = some s := by
  cases fuel <;> simp [selectLoop, hg]

/-- Character-level string order facts (the `String` order does not reduce in
the kernel, so they are proved through `toList`). -/
theorem str_a_le_b : ("a" : String) ≤ "b" := by
  rw [String.le_iff_toList_le]
  decide

theorem str_b_le_c : ("b" : String) ≤ "c" := by
  rw [String.le_iff_toList_le]
  decide

/-- The constant objective's composite gain is 1 in the configurations the
fixtures reach. -/
theorem constGain (db : Database) (c : SeqId) :
    constMixture.compute_marginal_gain db c [compute_similarity] [()] = 1 := by
  simp [MixtureObjective.compute_marginal_gain, constMixture, constObjective]

theorem constUpdate (db : Database) (c : SeqId) :
    constMixture.update_data db c [compute_similarity] [()] = [()] := by
  simp [MixtureObjective.update_data, constMixture, constObjective]

theorem stuck_pop0 : popMin stuckState0.queue =
    some (((⊥ : Priority), "a"), [((⊥ : Priority), "b")]) := by
  simp only [stuckState0, popMin, entryLE]
  norm_num [String.le_iff_toList_le]
  decide

theorem stuck_step0 :
    loopStep constMixture [compute_similarity] (1/100) 1 stuckState0 = stuckState1 := by
  unfold loopStep
  rw [stuck_pop0]
  dsimp only
  rw [show (popMin [((⊥ : Priority), "b")]).map (fun er => negPriority er.1.1) =
      some (⊤ : WithTop ℚ) from by simp [popMin, negPriority_bot]]
  rw [acceptDecision_top]
  simp only [Bool.false_eq_true, if_false]
  rw [show stuckState0.db = dbTwo from rfl,
    show stuckState0.objective_data = [()] from rfl, constGain]
  rfl

theorem stuck_step1 :
    loopStep constMixture [compute_similarity] (1/100) 1 stuckState1 = stuckState2 := by
  unfold loopStep
  rw [show popMin stuckState1.queue =
      some (((⊥ : Priority), "b"), [(((-1 : ℚ) : Priority), "a")]) from by
    simp only [stuckState1, popMin, entryLE]
    norm_num [String.le_iff_toList_le]]
  dsimp only
  rw [show (popMin [(((-1 : ℚ) : Priority), "a")]).map (fun er => negPriority er.1.1) =
      some (((1 : ℚ) : WithTop ℚ)) from by
    simp [popMin, negPriority_coe]]
  rw [show stuckState1.db = dbTwo from rfl,
    show stuckState1.objective_data = [()] from rfl, constGain]
  rw [show acceptDecision 1 (some ((1 : ℚ) : WithTop ℚ)) (1/100) 1 = false from by
    rw [acceptDecision_coe]
    rw [decide_eq_false_iff_not]
    norm_num]
  simp only [Bool.false_eq_true, if_false]
  rfl

theorem stuck_step2 :
    loopStep constMixture [compute_similarity] (1/100) 1 stuckState2 = stuckState3 := by
  unfold loopStep
  rw [show popMin stuckState2.queue =
      some ((((-1 : ℚ) : Priority), "a"), [(((-1 : ℚ) : Priority), "b")]) from by
    simp only [stuckState2, popMin, entryLE]
    norm_num [String.le_iff_toList_le]
    decide]
  dsimp only
  rw [show (popMin [(((-1 : ℚ) : Priority), "b")]).map (fun er => negPriority er.1.1) =
      some (((1 : ℚ) : WithTop ℚ)) from by
    simp [popMin, negPriority_coe]]
  rw [show stuckState2.db = dbTwo from rfl,
    show stuckState2.objective_data = [()] from rfl, constGain]
  rw [show acceptDecision 1 (some ((1 : ℚ) : WithTop ℚ)) (1/100) 1 = false from by
    rw [acceptDecision_coe]
    rw [decide_eq_false_iff_not]
    norm_num]
  simp only [Bool.false_eq_true, if_false]
  rfl

theorem stuck_step3 :
    loopStep constMixture [compute_similarity] (1/100) 1 stuckState3 = stuckState3 := by
  unfold loopStep
  rw [show popMin stuckState3.queue =
      some ((((-1 : ℚ) : Priority), "a"), [(((-1 : ℚ) : Priority), "b")]) from by
    simp only [stuckState3, popMin, entryLE]
    norm_num [String.le_iff_toList_le]
    decide]
  dsimp only
  rw [show (popMin [(((-1 : ℚ) : Priority), "b")]).map (fun er => negPriority er.1.1) =
      some (((1 : ℚ) : WithTop ℚ)) from by
    simp [popMin, negPriority_coe]]
  rw [show stuckState3.db = dbTwo from rfl,
    show stuckState3.objective_data = [()] from rfl, constGain]
  rw [show acceptDecision 1 (some ((1 : ℚ) : WithTop ℚ)) (1/100) 1 = false from by
    rw [acceptDecision_coe]
    rw [decide_eq_false_iff_not]
    norm_num]
  simp only [Bool.false_eq_true, if_false]
  rfl

/-- On `dbTwo` with threshold 1 (from `approx_ratio = 2`) and constant equal
gains, the loop cycles through four states forever: the acceptance test can
never pass, so every amount of fuel is exhausted. -/
theorem selectLoop_stuck :
    ∀ (fuel : ℕ) (s : LoopState Unit),
      (s = stuckState0 ∨ s = stuckState1 ∨ s = stuckState2 ∨ s = stuckState3) →
      selectLoop constMixture [compute_similarity] (some 1) (1/100) 1 fuel s = none := by
  intro fuel
  induction fuel with
  | zero =>
    intro s hs
    have hg : loopGuard (some 1) s = true := by
      rcases hs with rfl | rfl | rfl | rfl <;> decide
    simp [selectLoop, hg]
  | succ n ih =>
    intro s hs
    have hg : loopGuard (some 1) s = true := by
      rcases hs with rfl | rfl | rfl | rfl <;> decide
    rw [selectLoop, if_pos hg]
    apply ih
    rcases hs with rfl | rfl | rfl | rfl
    · exact Or.inr (Or.inl stuck_step0)
    · exact Or.inr (Or.inr (Or.inl stuck_step1))
    · exact Or.inr (Or.inr (Or.inr stuck_step2))
    · exact Or.inr (Or.inr (Or.inr stuck_step3))

/-- Extra similarity functions beyond the zip truncation point never change a
zipped evaluation (list-level fact behind the absence of any count check at
evaluation time). -/
theorem zip_zip_append {α β γ : Type} (o : List α) (s extra : List β) (w : List γ)
    (h : o.length ≤ s.length) : o.zip ((s ++ extra).zip w) = o.zip (s.zip w) := by
  induction o generalizing s w with
  | nil => simp
  | cons a o' ih =>
    cases s with
    | nil => simp at h
    | cons f s' =>
      cases w with
      | nil => simp
      | cons x w' =>
        simp only [List.cons_append, List.zip_cons_cons]
        rw [ih s' w' (by simpa using h)]

/-! ## The claims -/

/-- C7: calling `select_representatives` on an empty database returns the
InvalidState error (a `ValueError` in the source), unconditionally in every
other argument — in particular the result does not depend on the objective,
the similarity functions, or the fuel, so no priority-queue operation and no
objective operation can have been invoked. -/
theorem select_empty_db_invalid_state {σ : Type} (fuel : ℕ) (m : MixtureObjective σ)
    (sims : List SimilarityFunction) (max_size : Option ℕ) (ar : ℚ) (ip : Priority)
    (ε : ℚ) (mrg : Option ℚ) :
    select_representatives fuel ([] : Database) m sims max_size ar ip ε mrg =
      .error .invalidState := by
  unfold select_representatives
  rw [if_pos rfl]

/-- C8: `MixtureObjective` construction succeeds exactly when the objective
list and the weight list have equal length (the weight values are never
inspected), fails with InvalidConfiguration exactly when the lengths differ,
and evaluation performs no count check: surplus similarity functions are
silently ignored by the zip truncation. -/
theorem mixture_init_checks_counts {σ : Type} (objectives : List (ObjectiveFunction σ))
    (weights : List ℚ) :
    ((∃ mo, MixtureObjective.init objectives weights = .ok mo) ↔
      objectives.length = weights.length) ∧
    (MixtureObjective.init objectives weights = .error .invalidConfiguration ↔
      objectives.length ≠ weights.length) ∧
    (∀ (mo : MixtureObjective σ) (db : Database) (seq_ids : List SeqId)
        (sims extra : List SimilarityFunction), mo.objectives.length ≤ sims.length →
      mo.evaluate db seq_ids (sims ++ extra) = mo.evaluate db seq_ids sims) := by
  refine ⟨?_, ?_, ?_⟩
  · constructor
    · rintro ⟨mo, hmo⟩
      by_contra hne
      simp [MixtureObjective.init, hne] at hmo
    · intro heq
      exact ⟨⟨objectives, weights⟩, by simp [MixtureObjective.init, heq]⟩
  · constructor
    · intro h
      intro heq
      simp [MixtureObjective.init, heq] at h
    · intro hne
      simp [MixtureObjective.init, hne]
  · intro mo db seq_ids sims extra hlen
    unfold MixtureObjective.evaluate
    rw [zip_zip_append _ _ _ _ hlen]

theorem mixture_init_checks_counts_witness :
    (∃ mo, MixtureObjective.init [constObjective] [(1 : ℚ)] = .ok mo) ∧
    (MixtureObjective.init [constObjective] ([] : List ℚ) =
      .error .invalidConfiguration) ∧
    constMixture.evaluate dbTwo ["a"] [compute_similarity, compute_similarity] =
      constMixture.evaluate dbTwo ["a"] [compute_similarity] :=
  ⟨(mixture_init_checks_counts [constObjective] [1]).1.mpr rfl,
   (mixture_init_checks_counts [constObjective] []).2.1.mpr (by decide),
   (mixture_init_checks_counts [constObjective] [1]).2.2 constMixture dbTwo ["a"]
     [compute_similarity] [compute_similarity] (by decide)⟩

/-- C4 (code bug): with target size 0 the source performs no validation at
all — the selection loop is simply skipped and the empty list is returned
normally, for every fuel. The spec (and the repository's own test for the
previous API) requires an InvalidConfiguration error for a non-positive
target size. -/
theorem select_max_size_zero_returns_empty (fuel : ℕ) :
    select_representatives fuel dbThree constMixture [compute_similarity] (some 0) 1 ⊥
      (1/100) none = .ok (some []) := by
  rw [select_run_eq fuel constMixture (some 0) 1 ⊥ (1/100) none (by simp [dbThree]) rfl]
  have hguard : loopGuard (some 0)
      (initState dbThree constMixture [compute_similarity] ⊥) = false := by decide
  rw [selectLoop_of_guard_false _ _ _ _ _ fuel hguard]
  rfl

/-- C10: on a database with exactly one sequence the loop guard
(`len(priority_queue) > 1`) fails immediately, so the lone id is appended by
the post-loop fix-up and returned — for every fuel, every objective (whatever
its `diff_func`/`update_func` do, they are never invoked), and every
`max_size` that is `None` or at least 1. -/
theorem select_singleton_returns_it {σ : Type} (fuel : ℕ) (x : SeqId) (nd : NeighborDict)
    (m : MixtureObjective σ) (sims : List SimilarityFunction)
    (max_size : Option ℕ) (ar : ℚ) (ip : Priority) (ε : ℚ) (mrg : Option ℚ)
    (hsim : sims.length = m.objectives.length)
    (hmax : max_size = none ∨ ∃ k, 1 ≤ k ∧ max_size = some k) :
    select_representatives fuel [(x, nd)] m sims max_size ar ip ε mrg =
      .ok (some [x]) := by
  rw [select_run_eq fuel m max_size ar ip ε mrg (by simp) hsim]
  have hguard : loopGuard max_size (initState [(x, nd)] m sims ip) = false := by
    simp [loopGuard, initState]
  rw [selectLoop_of_guard_false _ _ _ _ _ fuel hguard]
  have hum : underMax max_size 0 = true := by
    rcases hmax with rfl | ⟨k, hk, rfl⟩
    · rfl
    · rw [underMax_some_iff]
      omega
  unfold finalizeSelection initState
  simp [hum]

theorem select_singleton_returns_it_witness :
    select_representatives 7 [("x", emptyNeighbors)] constMixture [compute_similarity]
      none 1 ⊥ (1/100) none = .ok (some ["x"]) :=
  select_singleton_returns_it 7 "x" emptyNeighbors constMixture [compute_similarity]
    none 1 ⊥ (1/100) none rfl (Or.inl rfl)

/-- C9: the selection loop never modifies the database: whatever state the
loop returns carries the database it started from, for every objective,
similarity functions, size bound, thresholds and fuel (in this embedding the
objective operations are pure functions, matching the claim's proviso that
they do not themselves mutate the database). -/
theorem selectLoop_preserves_database {σ : Type} (m : MixtureObjective σ)
    (sims : List SimilarityFunction) (max_size : Option ℕ) (ε μ : ℚ) (fuel : ℕ)
    (s s' : LoopState σ)
    (h : selectLoop m sims max_size ε μ fuel s = some s') : s'.db = s.db :=
  (selectLoop_inv m sims max_size ε μ (fun t => t.db = s.db)
    (fun u _ hu => (loopStep_db m sims ε μ u).trans hu) fuel s s' rfl h).1

theorem selectLoop_preserves_database_witness :
    (⟨dbThree, ["c"], [((⊥ : Priority), "b")], [()]⟩ : LoopState Unit).db = dbThree :=
  (selectLoop_preserves_database constMixture [compute_similarity] none (1/100) 0 5
    (⟨dbThree, ["c"], [((⊥ : Priority), "b")], [()]⟩ : LoopState Unit)
    (⟨dbThree, ["c"], [((⊥ : Priority), "b")], [()]⟩ : LoopState Unit) (by rfl)).trans rfl

/-- C2 (code bug): with `approx_ratio = 2` (so `min_relative_gain = 1`) on a
two-sequence database whose candidates always have equal marginal gain 1,
the acceptance test can never pass, and the loop re-pops and re-queues the
same entries forever: the run returns for no amount of fuel, refuting
termination. (Only the bound `|result| ≤ max_size` part of the claim holds;
the dead `evaluations_since_last_selection` counter in the source is the
remnant of the missing escape hatch.) -/
theorem select_approx_gt_one_diverges (fuel : ℕ) :
    select_representatives fuel dbTwo constMixture [compute_similarity] (some 1) 2 ⊥
      (1/100) none = .ok none := by
  rw [select_run_eq fuel constMixture (some 1) 2 ⊥ (1/100) none (by simp [dbTwo]) rfl]
  have hμ : ((none : Option ℚ).getD (2 - 1)) = (1 : ℚ) := by norm_num
  rw [hμ]
  have h0 : initState dbTwo constMixture [compute_similarity] ⊥ = stuckState0 := rfl
  rw [h0, selectLoop_stuck fuel stuckState0 (Or.inl rfl)]

/-- Shape of a rejecting loop step. -/
theorem loopStep_reject {σ : Type} (m : MixtureObjective σ)
    (sims : List SimilarityFunction) (ε μ : ℚ) (s : LoopState σ) (e : Entry)
    (rest : List Entry) (hpop : popMin s.queue = some (e, rest))
    (hacc : acceptDecision (m.compute_marginal_gain s.db e.2 sims s.objective_data)
      ((popMin rest).map (fun er => negPriority er.1.1)) ε μ = false) :
    loopStep m sims ε μ s = { s with queue := rest ++
      [(((-(m.compute_marginal_gain s.db e.2 sims s.objective_data) : ℚ) :
        Priority), e.2)] } := by
  unfold loopStep
  rw [hpop]
  dsimp only
  rw [hacc]
  simp only [Bool.false_eq_true, if_false]

/-- Case split on the post-loop fix-up. -/
theorem finalize_cases {σ : Type} (max_size : Option ℕ) (s : LoopState σ) :
    finalizeSelection max_size s = s.representatives ∨
      (∃ e, s.queue = [e] ∧ underMax max_size s.representatives.length = true ∧
        finalizeSelection max_size s = s.representatives ++ [e.2]) := by
  unfold finalizeSelection
  rcases hq : s.queue with _ | ⟨e, _ | ⟨f, t⟩⟩
  · exact Or.inl rfl
  · show ((if underMax max_size s.representatives.length = true then
        s.representatives ++ [e.2] else s.representatives) = _ ∨ _)
    by_cases hum : underMax max_size s.representatives.length = true
    · exact Or.inr ⟨e, rfl, hum, by
        show (if underMax max_size s.representatives.length = true then
          s.representatives ++ [e.2] else s.representatives) = _
        rw [if_pos hum]⟩
    · rw [if_neg hum]
      exact Or.inl rfl
  · exact Or.inl rfl

/-- C3: whenever a run of `select_representatives` with target size `K` over a
non-empty database returns, the returned list has length between 0 and `K`,
has no duplicates, draws all its members from the database keys (in
acceptance order), and can contain every key only when `K` is at least the
number of keys — for every objective, similarity functions and tuning
parameters. -/
theorem select_output_well_formed {σ : Type} (fuel : ℕ) (db : Database)
    (m : MixtureObjective σ) (sims : List SimilarityFunction) (K : ℕ)
    (ar : ℚ) (ip : Priority) (ε : ℚ) (mrg : Option ℚ) (reps : List SeqId)
    (hdb : db ≠ []) (hnodup : (dbKeys db).Nodup)
    (hsim : sims.length = m.objectives.length)
    (hrun : select_representatives fuel db m sims (some K) ar ip ε mrg =
      .ok (some reps)) :
    reps.length ≤ K ∧ reps.Nodup ∧ (∀ x ∈ reps, x ∈ dbKeys db) ∧
      ((∀ x ∈ dbKeys db, x ∈ reps) → (dbKeys db).length ≤ K) := by
  rw [select_run_eq fuel m (some K) ar ip ε mrg hdb hsim] at hrun
  cases hsl : selectLoop m sims (some K) ε (mrg.getD (ar - 1)) fuel
      (initState db m sims ip) with
  | none => rw [hsl] at hrun; exact absurd hrun (by simp)
  | some s' =>
    rw [hsl] at hrun
    simp only [Except.ok.injEq, Option.some.injEq] at hrun
    have hinv := selectLoop_inv m sims (some K) ε (mrg.getD (ar - 1))
      (fun t => ((t.representatives ++ queueIds t.queue).Perm (dbKeys db)) ∧
        t.representatives.length ≤ K)
      (fun u hg hu => by
        refine ⟨(loopStep_perm m sims ε (mrg.getD (ar - 1)) u).trans hu.1, ?_⟩
        have hlt : u.representatives.length < K := by
          have h := loopGuard_underMax hg
          rwa [underMax_some_iff] at h
        have h2 := loopStep_reps_le m sims ε (mrg.getD (ar - 1)) u
        omega)
      fuel _ s'
      ⟨by rw [initState_queueIds]; exact (List.Perm.refl _ : ([] ++ dbKeys db).Perm _),
        by simp [initState]⟩ hsl
    obtain ⟨⟨hperm, hlen⟩, _⟩ := hinv
    have hpoolnodup : (s'.representatives ++ queueIds s'.queue).Nodup :=
      (hperm.nodup_iff).mpr hnodup
    subst hrun
    rcases finalize_cases (some K) s' with hfin | ⟨e, hq, hum, hfin⟩
    · rw [hfin]
      have hsub : List.Subperm s'.representatives (dbKeys db) :=
        ((List.sublist_append_left s'.representatives (queueIds s'.queue)).subperm).trans
          hperm.subperm
      refine ⟨hlen, ?_, ?_, ?_⟩
      · exact (List.sublist_append_left s'.representatives (queueIds s'.queue)).nodup
          hpoolnodup
      · intro x hx
        exact hperm.subset (List.mem_append_left _ hx)
      · intro hall
        have hkeys : List.Subperm (dbKeys db) s'.representatives :=
          hnodup.subperm hall
        have := hkeys.length_le
        omega
    · rw [hfin]
      have hpool : s'.representatives ++ queueIds s'.queue =
          s'.representatives ++ [e.2] := by
        rw [hq]
        rfl
      have hperm' : (s'.representatives ++ [e.2]).Perm (dbKeys db) := by
        rw [← hpool]
        exact hperm
      have hlt : s'.representatives.length < K := by
        rwa [underMax_some_iff] at hum
      refine ⟨by simp; omega, hperm'.nodup_iff.mpr hnodup, ?_, ?_⟩
      · intro x hx
        exact hperm'.subset hx
      · intro _
        have := hperm'.length_eq
        simp at this
        omega

theorem select_output_well_formed_witness :
    (["x"] : List SeqId).length ≤ 1 ∧ (["x"] : List SeqId).Nodup ∧
      (∀ x ∈ (["x"] : List SeqId), x ∈ dbKeys [("x", emptyNeighbors)]) ∧
      ((∀ x ∈ dbKeys [("x", emptyNeighbors)], x ∈ (["x"] : List SeqId)) →
        (dbKeys [("x", emptyNeighbors)]).length ≤ 1) :=
  select_output_well_formed 3 [("x", emptyNeighbors)] constMixture [compute_similarity]
    1 1 ⊥ (1/100) none ["x"] (by simp) (by simp [dbKeys]) rfl (by rfl)

/-- C5: with `max_size = None` (select until exhausted) and `approx_ratio = 1`
(exact mode, so the default `min_relative_gain` is 0), the run terminates —
there is a fuel with which `select_representatives` returns — and the
returned list contains every database key exactly once, for every objective
and similarity functions and any positive denominator offset. -/
theorem exact_unbounded_selects_all {σ : Type} (db : Database)
    (m : MixtureObjective σ) (sims : List SimilarityFunction) (ε : ℚ)
    (ip : Priority) (hdb : db ≠ []) (hnodup : (dbKeys db).Nodup)
    (hsim : sims.length = m.objectives.length) (hε : 0 < ε) :
    ∃ (fuel : ℕ) (reps : List SeqId),
      select_representatives fuel db m sims none 1 ip ε none = .ok (some reps) ∧
        reps.Nodup ∧ reps.Perm (dbKeys db) := by
  have hμ : ((none : Option ℚ).getD ((1 : ℚ) - 1)) = (0 : ℚ) := by norm_num
  obtain ⟨s', hs'⟩ := selectLoop_terminates m sims none hε (le_refl (0 : ℚ))
    (loopMeasure m sims (initState db m sims ip)) (initState db m sims ip) (le_refl _)
  have hinv := selectLoop_inv m sims none ε 0
    (fun t => ((t.representatives ++ queueIds t.queue).Perm (dbKeys db)) ∧ t.queue ≠ [])
    (fun u hg hu => ⟨(loopStep_perm m sims ε 0 u).trans hu.1,
      loopStep_queue_ne_nil m sims ε 0 u hg⟩)
    (loopMeasure m sims (initState db m sims ip)) _ s'
    ⟨by rw [initState_queueIds]; exact List.Perm.refl _, by simpa [initState]⟩ hs'
  obtain ⟨⟨hperm, hne⟩, hguard⟩ := hinv
  have hqlen : s'.queue.length = 1 := by
    have h1 : ¬(1 < s'.queue.length) := by
      unfold loopGuard underMax at hguard
      simpa using hguard
    have h2 : s'.queue.length ≠ 0 := fun h => hne (List.length_eq_zero.mp h)
    omega
  obtain ⟨e, hq⟩ := List.length_eq_one.mp hqlen
  refine ⟨loopMeasure m sims (initState db m sims ip),
    s'.representatives ++ [e.2], ?_, ?_, ?_⟩
  · rw [select_run_eq _ m none 1 ip ε none hdb hsim, hμ, hs']
    have hfin : finalizeSelection none s' = s'.representatives ++ [e.2] := by
      unfold finalizeSelection
      rw [hq]
      rfl
    show Except.ok (some (finalizeSelection none s')) =
      Except.ok (some (s'.representatives ++ [e.2]))
    rw [hfin]
  · have hpool : s'.representatives ++ queueIds s'.queue =
        s'.representatives ++ [e.2] := by rw [hq]; rfl
    rw [← hpool]
    exact hperm.nodup_iff.mpr hnodup
  · have hpool : s'.representatives ++ queueIds s'.queue =
        s'.representatives ++ [e.2] := by rw [hq]; rfl
    rw [← hpool]
    exact hperm

theorem exact_unbounded_selects_all_witness :
    ∃ (fuel : ℕ) (reps : List SeqId),
      select_representatives fuel [("x", emptyNeighbors)] constMixture
        [compute_similarity] none 1 ⊥ (1/100) none = .ok (some reps) ∧
        reps.Nodup ∧ reps.Perm (dbKeys [("x", emptyNeighbors)]) :=
  exact_unbounded_selects_all [("x", emptyNeighbors)] constMixture
    [compute_similarity] (1/100) ⊥ (by simp) (by simp [dbKeys]) rfl (by norm_num)

theorem iter_pop0 : popMin iterState0.queue =
    some (((⊥ : Priority), "a"), [((⊥ : Priority), "b"), ((⊥ : Priority), "c")]) := by
  simp only [iterState0, popMin, entryLE]
  norm_num [String.le_iff_toList_le]
  decide

theorem iter_pop1 : popMin iterState1.queue =
    some (((⊥ : Priority), "b"), [((⊥ : Priority), "c"), (((-1 : ℚ) : Priority), "a")]) := by
  simp only [iterState1, popMin, entryLE]
  norm_num [String.le_iff_toList_le]
  decide

theorem iter_pop2 : popMin iterState2.queue =
    some (((⊥ : Priority), "c"), [(((-1 : ℚ) : Priority), "a"),
      (((-1 : ℚ) : Priority), "b")]) := by
  simp only [iterState2, popMin, entryLE]
  norm_num [String.le_iff_toList_le]
  decide

theorem exact_step0 :
    loopStep constMixture [compute_similarity] (1/100) 0 iterState0 = iterState1 := by
  rw [loopStep_reject constMixture [compute_similarity] (1/100) 0 iterState0
    ((⊥ : Priority), "a") [((⊥ : Priority), "b"), ((⊥ : Priority), "c")] iter_pop0
    (by
      rw [show popMin [((⊥ : Priority), "b"), ((⊥ : Priority), "c")] =
          some (((⊥ : Priority), "b"), [((⊥ : Priority), "c")]) from by
        simp only [popMin, entryLE]
        norm_num [String.le_iff_toList_le]
        decide]
      simp only [Option.map_some']
      rw [negPriority_bot, acceptDecision_top])]
  rw [show iterState0.db = dbThree from rfl,
    show iterState0.objective_data = [()] from rfl, constGain]
  rfl

theorem exact_step1 :
    loopStep constMixture [compute_similarity] (1/100) 0 iterState1 = iterState2 := by
  rw [loopStep_reject constMixture [compute_similarity] (1/100) 0 iterState1
    ((⊥ : Priority), "b") [((⊥ : Priority), "c"), (((-1 : ℚ) : Priority), "a")] iter_pop1
    (by
      rw [show popMin [((⊥ : Priority), "c"), (((-1 : ℚ) : Priority), "a")] =
          some (((⊥ : Priority), "c"), [(((-1 : ℚ) : Priority), "a")]) from by
        simp only [popMin, entryLE]
        norm_num]
      simp only [Option.map_some']
      rw [negPriority_bot, acceptDecision_top])]
  rw [show iterState1.db = dbThree from rfl,
    show iterState1.objective_data = [()] from rfl, constGain]
  rfl

theorem loopIter_two_eq :
    loopIter constMixture [compute_similarity] none (1/100) 0 2
      (initState dbThree constMixture [compute_similarity] ⊥) = iterState2 := by
  have h0 : initState dbThree constMixture [compute_similarity] ⊥ = iterState0 := rfl
  have hg0 : loopGuard none iterState0 = true := by decide
  have hg1 : loopGuard none iterState1 = true := by decide
  rw [h0]
  rw [loopIter, if_pos hg0, exact_step0]
  rw [loopIter, if_pos hg1, exact_step1]
  rw [loopIter]

/-- C1: in exact mode (`approx_ratio = 1.0`, so the default
`min_relative_gain` is 0; the default `initial_priority` sentinel seeds the
queue), assuming marginal gains are non-increasing under state advancement
(monotone submodularity of the mixture), every candidate the main loop
accepts has exact marginal gain at least the current exact marginal gain of
every other candidate still in the queue at the moment of acceptance: the
accelerated selection accepts exactly a true best remaining candidate. -/
theorem exact_mode_accepts_true_best {σ : Type} (db : Database)
    (m : MixtureObjective σ) (sims : List SimilarityFunction)
    (max_size : Option ℕ) (ε : ℚ) (hε : 0 < ε)
    (hsub : ∀ (data : List σ) (x c : SeqId),
      m.compute_marginal_gain db c sims (m.update_data db x sims data) ≤
        m.compute_marginal_gain db c sims data)
    (n : ℕ) (e : Entry) (rest : List Entry)
    (hpop : popMin (loopIter m sims max_size ε 0 n (initState db m sims ⊥)).queue =
      some (e, rest))
    (hacc : acceptDecision
      (m.compute_marginal_gain db e.2 sims
        (loopIter m sims max_size ε 0 n (initState db m sims ⊥)).objective_data)
      ((popMin rest).map (fun er => negPriority er.1.1)) ε 0 = true) :
    ∀ x ∈ rest,
      m.compute_marginal_gain db x.2 sims
          (loopIter m sims max_size ε 0 n (initState db m sims ⊥)).objective_data ≤
        m.compute_marginal_gain db e.2 sims
          (loopIter m sims max_size ε 0 n (initState db m sims ⊥)).objective_data := by
  set s := loopIter m sims max_size ε 0 n (initState db m sims ⊥) with hs
  have hinv : boundsOK m sims s ∧ s.db = db := by
    rw [hs]
    exact loopIter_inv m sims max_size ε 0
      (fun t => boundsOK m sims t ∧ t.db = db)
      (fun u hg hu => ⟨boundsOK_step m sims ε 0 u
          (by intro data x c; rw [hu.2]; exact hsub data x c) hu.1,
        (loopStep_db m sims ε 0 u).trans hu.2⟩)
      n _ ⟨boundsOK_init db m sims, rfl⟩
  obtain ⟨hB, hdb⟩ := hinv
  intro x hx
  obtain ⟨⟨e2, rest2⟩, hpop2⟩ : ∃ p, popMin rest = some p := by
    cases h2 : popMin rest with
    | none =>
      rw [popMin_eq_none.mp h2] at hx
      simp at hx
    | some p => exact ⟨p, rfl⟩
  rw [hpop2] at hacc
  simp only [Option.map_some'] at hacc
  have hne : e2.1 ≠ ⊥ := by
    intro hb
    rw [hb, negPriority_bot, acceptDecision_top] at hacc
    exact Bool.false_ne_true hacc
  obtain ⟨q2, hq2⟩ := WithBot.ne_bot_iff_exists.mp hne
  rw [← hq2, negPriority_coe] at hacc
  have hg2 : -q2 ≤ m.compute_marginal_gain db e.2 sims s.objective_data :=
    le_of_acceptDecision hε (le_refl 0) hacc
  have hxmem : x ∈ s.queue := (popMin_perm hpop).symm.subset (List.mem_cons_of_mem _ hx)
  have hxB := hB x hxmem
  rw [hdb] at hxB
  have hkey : e2.1 ≤ x.1 := by
    rcases List.mem_cons.mp ((popMin_perm hpop2).subset hx) with rfl | hx2
    · exact le_refl _
    · exact entryLE_key (popMin_le hpop2 x hx2)
  have hb2 : negPriority x.1 ≤ negPriority e2.1 := negPriority_antitone hkey
  rw [← hq2, negPriority_coe] at hb2
  have hchain : ((m.compute_marginal_gain db x.2 sims s.objective_data : ℚ) :
      WithTop ℚ) ≤ ((m.compute_marginal_gain db e.2 sims s.objective_data : ℚ) :
      WithTop ℚ) :=
    le_trans hxB (le_trans hb2 (by exact_mod_cast hg2))
  exact_mod_cast hchain

theorem exact_mode_accepts_true_best_witness :
    constMixture.compute_marginal_gain dbThree "a" [compute_similarity]
        (loopIter constMixture [compute_similarity] none (1/100) 0 2
          (initState dbThree constMixture [compute_similarity] ⊥)).objective_data ≤
      constMixture.compute_marginal_gain dbThree "c" [compute_similarity]
        (loopIter constMixture [compute_similarity] none (1/100) 0 2
          (initState dbThree constMixture [compute_similarity] ⊥)).objective_data := by
  refine exact_mode_accepts_true_best dbThree constMixture [compute_similarity] none
    (1/100) (by norm_num) ?_ 2 ((⊥ : Priority), "c")
    [(((-1 : ℚ) : Priority), "a"), (((-1 : ℚ) : Priority), "b")] ?_ ?_
    (((-1 : ℚ) : Priority), "a") ?_
  · intro data x c
    cases data <;>
      simp [MixtureObjective.compute_marginal_gain, MixtureObjective.update_data,
        constMixture, constObjective]
  · rw [loopIter_two_eq]
    exact iter_pop2
  · rw [loopIter_two_eq]
    rw [show iterState2.objective_data = [()] from rfl, constGain]
    rw [show popMin [(((-1 : ℚ) : Priority), "a"), (((-1 : ℚ) : Priority), "b")] =
        some ((((-1 : ℚ) : Priority), "a"), [(((-1 : ℚ) : Priority), "b")]) from by
      simp only [popMin, entryLE]
      norm_num [String.le_iff_toList_le]
      decide]
    simp only [Option.map_some']
    rw [negPriority_coe, acceptDecision_coe, decide_eq_true_eq]
    norm_num
  · exact List.mem_cons_self _ _

/-! ### Association-list lemmas for the parser -/

theorem assocGet_assocSet_self {V : Type} (l : List (SeqId × V)) (k : SeqId) (v : V) :
    assocGet (assocSet l k v) k = some v := by
  induction l with
  | nil => simp [assocSet, assocGet]
  | cons p t ih =>
    obtain ⟨k', v'⟩ := p
    by_cases h : k' = k
    · subst h
      simp [assocSet, assocGet]
    · simp [assocSet, assocGet, h, ih]

theorem assocGet_assocSet_ne {V : Type} (l : List (SeqId × V)) (k k' : SeqId) (v : V)
    (h : k' ≠ k) : assocGet (assocSet l k v) k' = assocGet l k' := by
  induction l with
  | nil => simp [assocSet, assocGet, Ne.symm h]
  | cons p t ih =>
    obtain ⟨k'', v''⟩ := p
    by_cases h2 : k'' = k
    · subst h2
      simp [assocSet, assocGet, Ne.symm h]
    · by_cases h3 : k'' = k' <;> simp [assocSet, assocGet, h, h2, h3, ih]

theorem assocGet_assocModify_self {V : Type} (l : List (SeqId × V)) (k : SeqId)
    (f : V → V) : assocGet (assocModify l k f) k = (assocGet l k).map f := by
  induction l with
  | nil => simp [assocModify, assocGet]
  | cons p t ih =>
    obtain ⟨k', v⟩ := p
    by_cases h : k' = k
    · subst h
      simp [assocModify, assocGet]
    · simp [assocModify, assocGet, h, ih]

theorem assocGet_assocModify_ne {V : Type} (l : List (SeqId × V)) (k k' : SeqId)
    (f : V → V) (h : k ≠ k') : assocGet (assocModify l k f) k' = assocGet l k' := by
  induction l with
  | nil => simp [assocModify, assocGet]
  | cons p t ih =>
    obtain ⟨k'', v⟩ := p
    by_cases h2 : k'' = k
    · subst h2
      simp [assocModify, assocGet, h, Ne.symm h, ih]
    · by_cases h3 : k'' = k' <;> simp [assocModify, assocGet, h, Ne.symm h, h2, h3, ih]

theorem assocGet_append_of_isSome {V : Type} {l : List (SeqId × V)}
    (l' : List (SeqId × V)) {k : SeqId} (h : (assocGet l k).isSome) :
    assocGet (l ++ l') k = assocGet l k := by
  induction l with
  | nil => simp [assocGet] at h
  | cons p t ih =>
    obtain ⟨k', v⟩ := p
    by_cases h2 : k' = k
    · subst h2
      simp [assocGet]
    · simp only [assocGet, if_neg h2] at h ⊢
      exact ih h

theorem assocGet_append_of_none {V : Type} {l : List (SeqId × V)}
    (l' : List (SeqId × V)) {k : SeqId} (h : assocGet l k = none) :
    assocGet (l ++ l') k = assocGet l' k := by
  induction l with
  | nil => simp
  | cons p t ih =>
    obtain ⟨k', v⟩ := p
    by_cases h2 : k' = k
    · subst h2
      simp [assocGet] at h
    · simp only [assocGet, if_neg h2] at h ⊢
      exact ih h

/-! ### What one parsed row does to the database -/

/-- After the two conditional inserts of `recordStep`, both ids are present. -/
theorem recordStep_inits_present (db : Database) (A B : SeqId) :
    let db1 := if (assocGet db A).isSome then db else db ++ [(A, ⟨[], []⟩)]
    let db2 := if (assocGet db1 B).isSome then db1 else db1 ++ [(B, ⟨[], []⟩)]
    (assocGet db2 A).isSome ∧ (assocGet db2 B).isSome := by
  intro db1 db2
  have hA1 : (assocGet db1 A).isSome := by
    unfold_let db1
    cases h : assocGet db A with
    | none =>
      rw [if_neg (by simp [h]), assocGet_append_of_none _ h]
      simp [assocGet]
    | some v => rw [if_pos (by simp [h]), h]; rfl
  have hB2 : (assocGet db2 B).isSome := by
    unfold_let db2
    cases h : assocGet db1 B with
    | none =>
      rw [if_neg (by simp [h]), assocGet_append_of_none _ h]
      simp [assocGet]
    | some v => rw [if_pos (by simp [h]), h]; rfl
  have hA2 : (assocGet db2 A).isSome := by
    unfold_let db2
    by_cases h : (assocGet db1 B).isSome
    · rwa [if_pos h]
    · rw [if_neg h, assocGet_append_of_isSome _ hA1]
      exact hA1
  exact ⟨hA2, hB2⟩

/-- `recordStep` records the pair bidirectionally, in the direction the
source actually uses: `db[B].neighbors[A]` and `db[A].in_neighbors[B]`
(where `A` is the stripped first column and `B` the stripped second column),
both holding the placeholder e-value −100 and the row's identity. Both ids
become keys. -/
theorem recordStep_writes (db : Database) (A B : SeqId) (p : ℚ) :
    neighborsAt (recordStep db A B p) B A = some ⟨-100, p⟩ ∧
      inNeighborsAt (recordStep db A B p) A B = some ⟨-100, p⟩ ∧
      (assocGet (recordStep db A B p) A).isSome ∧
      (assocGet (recordStep db A B p) B).isSome := by
  obtain ⟨hA2, hB2⟩ := recordStep_inits_present db A B
  set db1 := if (assocGet db A).isSome then db else db ++ [(A, ⟨[], []⟩)] with hdb1
  set db2 := if (assocGet db1 B).isSome then db1 else db1 ++ [(B, ⟨[], []⟩)] with hdb2
  set info : NeighborInfo := ⟨-100, p⟩ with hinfo
  set db3 := assocModify db2 B
    (fun nd => { nd with neighbors := assocSet nd.neighbors A info }) with hdb3
  set db4 := assocModify db3 A
    (fun nd => { nd with in_neighbors := assocSet nd.in_neighbors B info }) with hdb4
  have hrec : recordStep db A B p = db4 := rfl
  obtain ⟨ndB, hndB⟩ := Option.isSome_iff_exists.mp hB2
  have hdb3B : assocGet db3 B =
      some { ndB with neighbors := assocSet ndB.neighbors A info } := by
    rw [hdb3, assocGet_assocModify_self, hndB]
    rfl
  have hn : neighborsAt db4 B A = some info := by
    by_cases hAB : A = B
    · subst hAB
      unfold neighborsAt
      rw [hdb4, assocGet_assocModify_self, hdb3B]
      show assocGet (assocSet ndB.neighbors A info) A = some info
      exact assocGet_assocSet_self _ _ _
    · unfold neighborsAt
      rw [hdb4, assocGet_assocModify_ne _ _ _ _ hAB, hdb3B]
      show assocGet (assocSet ndB.neighbors A info) A = some info
      exact assocGet_assocSet_self _ _ _
  have hdb3Asome : (assocGet db3 A).isSome := by
    by_cases hBA : B = A
    · subst hBA
      rw [hdb3B]
      rfl
    · rw [hdb3, assocGet_assocModify_ne _ _ _ _ hBA]
      exact hA2
  obtain ⟨ndA, hndA⟩ := Option.isSome_iff_exists.mp hdb3Asome
  have hi : inNeighborsAt db4 A B = some info := by
    unfold inNeighborsAt
    rw [hdb4, assocGet_assocModify_self, hndA]
    show assocGet (assocSet ndA.in_neighbors B info) B = some info
    exact assocGet_assocSet_self _ _ _
  refine ⟨hrec ▸ hn, hrec ▸ hi, ?_, ?_⟩
  · rw [hrec, hdb4, assocGet_assocModify_self, hndA]
    rfl
  · have h := hn
    unfold neighborsAt at h
    rw [hrec]
    cases hc : assocGet db4 B with
    | none => rw [hc] at h; exact absurd h (by simp)
    | some _ => rfl

/-- A key present before a row is processed is still present afterwards. -/
theorem recordStep_key_mono {db : Database} {k : SeqId} (A B : SeqId) (p : ℚ)
    (h : (assocGet db k).isSome) : (assocGet (recordStep db A B p) k).isSome := by
  unfold recordStep
  set db1 := if (assocGet db A).isSome then db else db ++ [(A, ⟨[], []⟩)] with hdb1
  set db2 := if (assocGet db1 B).isSome then db1 else db1 ++ [(B, ⟨[], []⟩)] with hdb2
  have h1 : (assocGet db1 k).isSome := by
    rw [hdb1]
    by_cases hc : (assocGet db A).isSome
    · rwa [if_pos hc]
    · rw [if_neg hc, assocGet_append_of_isSome _ h]
      exact h
  have h2 : (assocGet db2 k).isSome := by
    rw [hdb2]
    by_cases hc : (assocGet db1 B).isSome
    · rwa [if_pos hc]
    · rw [if_neg hc, assocGet_append_of_isSome _ h1]
      exact h1
  by_cases h3 : B = k
  · subst h3
    by_cases h4 : A = B
    · rw [h4, assocGet_assocModify_self, assocGet_assocModify_self]
      obtain ⟨v, hv⟩ := Option.isSome_iff_exists.mp h2
      rw [hv]
      rfl
    · rw [assocGet_assocModify_ne _ _ _ _ h4, assocGet_assocModify_self]
      obtain ⟨v, hv⟩ := Option.isSome_iff_exists.mp h2
      rw [hv]
      rfl
  · by_cases h4 : A = k
    · rw [h4, assocGet_assocModify_self, assocGet_assocModify_ne _ _ _ _ h3]
      obtain ⟨v, hv⟩ := Option.isSome_iff_exists.mp h2
      rw [hv]
      rfl
    · rw [assocGet_assocModify_ne _ _ _ _ h4, assocGet_assocModify_ne _ _ _ _ h3]
      exact h2

/-- Rows recording a different (ordered) pair leave the stored values of a
pair untouched. -/
theorem recordStep_preserves {db : Database} {A B : SeqId} {i1 i2 : NeighborInfo}
    (A' B' : SeqId) (p' : ℚ) (hpair : ¬(A' = A ∧ B' = B))
    (h1 : neighborsAt db B A = some i1) (h2 : inNeighborsAt db A B = some i2) :
    neighborsAt (recordStep db A' B' p') B A = some i1 ∧
      inNeighborsAt (recordStep db A' B' p') A B = some i2 := by
  set info : NeighborInfo := ⟨-100, p'⟩ with hinfo
  obtain ⟨ndB, hndB, hnbrs⟩ : ∃ nd, assocGet db B = some nd ∧
      assocGet nd.neighbors A = some i1 := by
    unfold neighborsAt at h1
    cases h : assocGet db B with
    | none => rw [h] at h1; exact absurd h1 (by simp)
    | some nd => rw [h] at h1; exact ⟨nd, rfl, h1⟩
  obtain ⟨ndA, hndA, hinn⟩ : ∃ nd, assocGet db A = some nd ∧
      assocGet nd.in_neighbors B = some i2 := by
    unfold inNeighborsAt at h2
    cases h : assocGet db A with
    | none => rw [h] at h2; exact absurd h2 (by simp)
    | some nd => rw [h] at h2; exact ⟨nd, rfl, h2⟩
  unfold recordStep
  set db1 := if (assocGet db A').isSome then db else db ++ [(A', ⟨[], []⟩)] with hdb1
  set db2 := if (assocGet db1 B').isSome then db1 else db1 ++ [(B', ⟨[], []⟩)] with hdb2
  have hpres1 : ∀ k v, assocGet db k = some v → assocGet db1 k = some v := by
    intro k v hv
    rw [hdb1]
    by_cases hc : (assocGet db A').isSome
    · rwa [if_pos hc]
    · rw [if_neg hc, assocGet_append_of_isSome _ (by simp [hv])]
      exact hv
  have hpres2 : ∀ k v, assocGet db k = some v → assocGet db2 k = some v := by
    intro k v hv
    rw [hdb2]
    by_cases hc : (assocGet db1 B').isSome
    · rw [if_pos hc]
      exact hpres1 k v hv
    · rw [if_neg hc, assocGet_append_of_isSome _ (by simp [hpres1 k v hv])]
      exact hpres1 k v hv
  set db3 := assocModify db2 B'
    (fun nd => { nd with neighbors := assocSet nd.neighbors A' info }) with hdb3
  have hgoal1 : neighborsAt (assocModify db3 A'
      (fun nd => { nd with in_neighbors := assocSet nd.in_neighbors B' info }))
      B A = some i1 := by
    obtain ⟨w, hw, hwn⟩ : ∃ w, assocGet db3 B = some w ∧
        assocGet w.neighbors A = some i1 := by
      by_cases hyB : B' = B
      · subst hyB
        rw [hdb3, assocGet_assocModify_self, hpres2 _ _ hndB]
        refine ⟨_, rfl, ?_⟩
        have hxA : A ≠ A' := by
          intro he
          exact hpair ⟨he.symm, rfl⟩
        show assocGet (assocSet ndB.neighbors A' info) A = some i1
        rw [assocGet_assocSet_ne _ _ _ _ hxA]
        exact hnbrs
      · rw [hdb3, assocGet_assocModify_ne _ _ _ _ hyB]
        exact ⟨ndB, hpres2 _ _ hndB, hnbrs⟩
    unfold neighborsAt
    by_cases hAB' : A' = B
    · rw [hAB', assocGet_assocModify_self, hw]
      show assocGet w.neighbors A = some i1
      exact hwn
    · rw [assocGet_assocModify_ne _ _ _ _ hAB', hw]
      show assocGet w.neighbors A = some i1
      exact hwn
  have hgoal2 : inNeighborsAt (assocModify db3 A'
      (fun nd => { nd with in_neighbors := assocSet nd.in_neighbors B' info }))
      A B = some i2 := by
    obtain ⟨w, hw, hwi⟩ : ∃ w, assocGet db3 A = some w ∧
        w.in_neighbors = ndA.in_neighbors := by
      by_cases hAB' : B' = A
      · subst hAB'
        rw [hdb3, assocGet_assocModify_self, hpres2 _ _ hndA]
        exact ⟨_, rfl, rfl⟩
      · rw [hdb3, assocGet_assocModify_ne _ _ _ _ hAB']
        exact ⟨ndA, hpres2 _ _ hndA, rfl⟩
    unfold inNeighborsAt
    by_cases hAA' : A' = A
    · rw [hAA', assocGet_assocModify_self, hw]
      show assocGet (assocSet w.in_neighbors B' info) B = some i2
      have hBB' : B ≠ B' := by
        intro he
        exact hpair ⟨hAA', he.symm⟩
      rw [assocGet_assocSet_ne _ _ _ _ hBB', hwi]
      exact hinn
    · rw [assocGet_assocModify_ne _ _ _ _ hAA', hw]
      show assocGet w.in_neighbors B = some i2
      rw [hwi]
      exact hinn
  exact ⟨hgoal1, hgoal2⟩

theorem recordRow_writes (db : Database) (a b : String) (p : ℚ) :
    neighborsAt (recordRow db (a, b, p)) (stripCoords b) (stripCoords a) =
        some ⟨-100, p⟩ ∧
      inNeighborsAt (recordRow db (a, b, p)) (stripCoords a) (stripCoords b) =
        some ⟨-100, p⟩ ∧
      (assocGet (recordRow db (a, b, p)) (stripCoords a)).isSome ∧
      (assocGet (recordRow db (a, b, p)) (stripCoords b)).isSome :=
  recordStep_writes db (stripCoords a) (stripCoords b) p

theorem recordRow_key_mono {db : Database} {k : SeqId} (r : String × String × ℚ)
    (h : (assocGet db k).isSome) : (assocGet (recordRow db r) k).isSome :=
  recordStep_key_mono (stripCoords r.1) (stripCoords r.2.1) r.2.2 h

theorem recordRow_preserves {db : Database} {A B : SeqId} {i1 i2 : NeighborInfo}
    (r : String × String × ℚ)
    (hpair : ¬(stripCoords r.1 = A ∧ stripCoords r.2.1 = B))
    (h1 : neighborsAt db B A = some i1) (h2 : inNeighborsAt db A B = some i2) :
    neighborsAt (recordRow db r) B A = some i1 ∧
      inNeighborsAt (recordRow db r) A B = some i2 :=
  recordStep_preserves (stripCoords r.1) (stripCoords r.2.1) r.2.2 hpair h1 h2

/-- Folding the remaining rows keeps the pair recorded (possibly overwritten
by a later row for the same ordered pair, always with e-value −100), and the
two directions always hold one and the same value. -/
theorem foldl_preserves_pair (A B : SeqId) :
    ∀ (post : List (String × String × ℚ)) (db : Database) (q0 : ℚ),
      neighborsAt db B A = some ⟨-100, q0⟩ →
      inNeighborsAt db A B = some ⟨-100, q0⟩ →
      ∃ q : ℚ, neighborsAt (List.foldl recordRow db post) B A = some ⟨-100, q⟩ ∧
        inNeighborsAt (List.foldl recordRow db post) A B = some ⟨-100, q⟩ ∧
        ((∀ r ∈ post, ¬(stripCoords r.1 = A ∧ stripCoords r.2.1 = B)) → q = q0) := by
  intro post
  induction post with
  | nil => exact fun db q0 h1 h2 => ⟨q0, h1, h2, fun _ => rfl⟩
  | cons r rs ih =>
    intro db q0 h1 h2
    by_cases hp : stripCoords r.1 = A ∧ stripCoords r.2.1 = B
    · obtain ⟨hA, hB⟩ := hp
      have hw := recordRow_writes db r.1 r.2.1 r.2.2
      rw [hA, hB] at hw
      obtain ⟨q, hq1, hq2, _⟩ := ih (recordRow db (r.1, r.2.1, r.2.2)) r.2.2 hw.1 hw.2.1
      refine ⟨q, by simpa using hq1, by simpa using hq2, fun hall => ?_⟩
      exact absurd ⟨hA, hB⟩ (hall r (List.mem_cons_self _ _))
    · obtain ⟨h1', h2'⟩ := recordRow_preserves r hp h1 h2
      obtain ⟨q, hq1, hq2, hcond⟩ := ih (recordRow db r) q0 h1' h2'
      exact ⟨q, hq1, hq2, fun hall =>
        hcond (fun r' hr' => hall r' (List.mem_cons_of_mem _ hr'))⟩

theorem foldl_key_mono {k : SeqId} :
    ∀ (rows : List (String × String × ℚ)) (db : Database),
      (assocGet db k).isSome →
      (assocGet (List.foldl recordRow db rows) k).isSome := by
  intro rows
  induction rows with
  | nil => exact fun db h => h
  | cons r rs ih => exact fun db h => ih (recordRow db r) (recordRow_key_mono r h)

/-- C6 (counterexample): on the single input row `(a, b, 50)` the parser does
NOT produce `neighbors[A][B]` and `in_neighbors[B][A]` for `A` the first
column and `B` the second, as the claim states: those two lookups are empty.
The row is recorded in the transposed direction, `neighbors[B][A]` and
`in_neighbors[A][B]`. -/
theorem parser_claimed_direction_fails :
    neighborsAt (parse_pairwise_identities [("a", "b", 50)]) "a" "b" = none ∧
    inNeighborsAt (parse_pairwise_identities [("a", "b", 50)]) "b" "a" = none ∧
    neighborsAt (parse_pairwise_identities [("a", "b", 50)]) "b" "a" =
      some ⟨-100, 50⟩ ∧
    inNeighborsAt (parse_pairwise_identities [("a", "b", 50)]) "a" "b" =
      some ⟨-100, 50⟩ := by
  decide

/-- C6 (amended): for every usable input row, with stripped first column `A`,
stripped second column `B` and identity `p`, the returned database has both
`A` and `B` as keys and records the pair bidirectionally in the transposed
direction: `neighbors[B][A]` and `in_neighbors[A][B]` exist and hold one and
the same pctIdentity (with the placeholder e-value −100); that value is `p`
itself whenever no later row records the same ordered stripped pair. -/
theorem parser_records_bidirectional (pre post : List (String × String × ℚ))
    (a b : String) (p : ℚ) :
    (assocGet (parse_pairwise_identities (pre ++ (a, b, p) :: post))
      (stripCoords a)).isSome ∧
    (assocGet (parse_pairwise_identities (pre ++ (a, b, p) :: post))
      (stripCoords b)).isSome ∧
    ∃ q : ℚ,
      neighborsAt (parse_pairwise_identities (pre ++ (a, b, p) :: post))
          (stripCoords b) (stripCoords a) = some ⟨-100, q⟩ ∧
        inNeighborsAt (parse_pairwise_identities (pre ++ (a, b, p) :: post))
          (stripCoords a) (stripCoords b) = some ⟨-100, q⟩ ∧
        ((∀ r ∈ post,
            ¬(stripCoords r.1 = stripCoords a ∧ stripCoords r.2.1 = stripCoords b)) →
          q = p) := by
  have hsplit : parse_pairwise_identities (pre ++ (a, b, p) :: post) =
      List.foldl recordRow (recordRow (List.foldl recordRow [] pre) (a, b, p)) post := by
    unfold parse_pairwise_identities
    rw [List.foldl_append]
    rfl
  have hw := recordRow_writes (List.foldl recordRow [] pre) a b p
  obtain ⟨q, hq1, hq2, hcond⟩ := foldl_preserves_pair (stripCoords a) (stripCoords b)
    post _ p hw.1 hw.2.1
  refine ⟨?_, ?_, q, by rw [hsplit]; exact hq1, by rw [hsplit]; exact hq2, hcond⟩
  · rw [hsplit]
    exact foldl_key_mono post _ hw.2.2.1
  · rw [hsplit]
    exact foldl_key_mono post _ hw.2.2.2

theorem parser_records_bidirectional_witness :
    (assocGet (parse_pairwise_identities ([] ++ ("a", "b", (50 : ℚ)) :: []))
      (stripCoords "a")).isSome ∧
    (assocGet (parse_pairwise_identities ([] ++ ("a", "b", (50 : ℚ)) :: []))
      (stripCoords "b")).isSome ∧
    ∃ q : ℚ,
      neighborsAt (parse_pairwise_identities ([] ++ ("a", "b", (50 : ℚ)) :: []))
          (stripCoords "b") (stripCoords "a") = some ⟨-100, q⟩ ∧
        inNeighborsAt (parse_pairwise_identities ([] ++ ("a", "b", (50 : ℚ)) :: []))
          (stripCoords "a") (stripCoords "b") = some ⟨-100, q⟩ ∧
        ((∀ r ∈ ([] : List (String × String × ℚ)),
            ¬(stripCoords r.1 = stripCoords "a" ∧ stripCoords r.2.1 = stripCoords "b")) →
          q = 50) :=
  parser_records_bidirectional [] [] "a" "b" 50

end Seqpicker
